import Mathlib

/-!
Verification of the index-export command of dc-cli
(src/src/commands/content-type-schema/get.ts, the `export <dir>` fragment).

The TypeScript handler aggregates several asynchronous fetches into a list of
`IndexEntry` records and writes them to a JSON file.  We embed the handler as a
pure function over an explicit fetch environment `FetchEnv`: every remote call
becomes a field of the environment returning `Except String`, a rejected
promise becomes `Except.error`, and `Promise.all` becomes the positional
sequencing function `promiseAll`.  The two replica loops additionally record
the fetches they issue, one block of `FetchEvent`s per input index, so that
claims about fetch ordering can be stated on the flattened begin-order trace.
-/

namespace DcCli

/-- Hub record (`const { id, name } = hubToExport`, get.ts line 61). -/
structure Hub where
  id : String
  name : String
deriving DecidableEq, Repr

/-- One element of `getIdexesDetailsList()` (get.ts line 92): a raw index
listing entry.  The handler reads `item.id`, `item.name` and `item.parentId`;
`parentId` is a string when present, hence `Option String`.  Modelled from the
spec for the shape (the `FetchClientService` class is not under src/): an
`IndexSummary` is `{id, name, parentId?}`. -/
structure IndexSummary where
  id : String
  name : String
  parentId : Option String := none
deriving DecidableEq, Repr

instance : Inhabited IndexSummary := ⟨⟨"", "", none⟩⟩

/-- Settings bag returned by `getIndexSettings` (get.ts line 100).  The code
only inspects `settings.replicas` (line 142, defaulting to `[]` when the field
is absent); the rest of the bag is opaque and kept as `data`. -/
structure IndexSettings where
  replicas : Option (List String) := none
  data : String := ""
deriving DecidableEq, Repr

instance : Inhabited IndexSettings := ⟨⟨none, ""⟩⟩

/-- The `_links` object of a content-type assignment (get.ts lines 122-123):
the link relations `active-content-webhook` and `archived-content-webhook`,
each carrying an `href` when present.  In JS, a missing relation makes
`type._links[...]` `undefined`, so the subsequent `.href` access throws. -/
structure WebhookLinks where
  activeContentWebhook : Option String := none
  archivedContentWebhook : Option String := none
deriving DecidableEq, Repr

/-- One content-type assignment as returned by `getIndexAssignedContentTypes`
(get.ts line 107); the handler reads `contentTypeUri` (logging, line 112) and
`_links` (lines 122-123). -/
structure ContentTypeAssignment where
  contentTypeUri : String
  links : WebhookLinks
deriving DecidableEq, Repr

/-- The custom payload of a webhook; the handler reads
`x.customPayload.value` (get.ts lines 137-138). -/
structure CustomPayload where
  value : String
deriving DecidableEq, Repr

/-- A webhook resolved by `hub.related.webhooks.get` (get.ts lines 132, 135). -/
structure Webhook where
  customPayload : CustomPayload
deriving DecidableEq, Repr

/-- One element of `replicasSettings` (get.ts lines 179-183):
`{ id: replicaIndexesList[i][j].id, name: replicas[i][j], settings: x }`. -/
structure ReplicaSettingsEntry where
  id : String
  name : String
  settings : IndexSettings
deriving DecidableEq, Repr

/-- The `indexDetails` part of an exported entry: the listing `item` itself
(get.ts line 188), mutated at line 197 to carry `assignedContentTypes` when at
least one assignment exists.  `assignedContentTypes = none` means the JSON
field is absent; `some l` means it is present with value `l`. -/
structure IndexDetails where
  id : String
  name : String
  parentId : Option String
  assignedContentTypes : Option (List ContentTypeAssignment) := none
deriving DecidableEq, Repr

/-- The exported record for one top-level index (get.ts lines 186-193).
`activeContentWebhook`/`archivedContentWebhook` are always-present JSON fields
whose value may be `null`; `none` here encodes the JSON value `null`. -/
structure IndexEntry where
  id : String
  indexDetails : IndexDetails
  settings : IndexSettings
  replicasSettings : List ReplicaSettingsEntry
  activeContentWebhook : Option String
  archivedContentWebhook : Option String
deriving DecidableEq, Repr

/-- A fetch issued during replica expansion: a by-name index lookup
(`getIndexByName`, get.ts line 151) or an index settings fetch
(`getIndexSettings`, get.ts line 166). -/
inductive FetchEvent where
  | byName (name : String)
  | settings (id : String)
deriving DecidableEq, Repr

/-- The environment of remote collaborators used by the handler: the
`FetchClientService` methods, the hub lookup, the hub-scoped webhook lookup,
and the overwrite-confirmation prompt of export.service.  Each remote call is
a deterministic `Except`-valued function; `Except.error` models a rejected
promise. -/
structure FetchEnv where
  getHub : Except String Hub
  getIdexesDetailsList : Except String (List IndexSummary)
  getIndexSettings : String → Except String IndexSettings
  getIndexAssignedContentTypes : String → Except String (List ContentTypeAssignment)
  getIndexByName : String → Except String IndexSummary
  getWebhook : String → Except String Webhook
  promptToExportSettings : String → Bool

/-- Decidable equality for `Except`, by cases on both constructors. -/
def exceptDecEq {ε α : Type} [DecidableEq ε] [DecidableEq α] :
    (x y : Except ε α) → Decidable (x = y)
  | .error a, .error b =>
    if h : a = b then .isTrue (by rw [h]) else .isFalse (by intro hx; cases hx; exact h rfl)
  | .error a, .ok b => .isFalse (by intro hx; cases hx)
  | .ok a, .error b => .isFalse (by intro hx; cases hx)
  | .ok a, .ok b =>
    if h : a = b then .isTrue (by rw [h]) else .isFalse (by intro hx; cases hx; exact h rfl)

instance {ε α : Type} [DecidableEq ε] [DecidableEq α] : DecidableEq (Except ε α) :=
  exceptDecEq

/-- `Promise.all` over an already-ordered list of promises: succeeds with the
results in input position order, rejects if any element rejects. -/
def promiseAll {α : Type} : List (Except String α) → Except String (List α)
  | [] => .ok []
  | x :: xs =>
    match x with
    | .error e => .error e
    | .ok v =>
      match promiseAll xs with
      | .error e => .error e
      | .ok vs => .ok (v :: vs)

/-- JS truthiness of `!x` for a string-or-undefined value: `undefined` and the
empty string are falsy, every other string is truthy.  This is the test
`!item.parentId` of get.ts line 177. -/
def jsStringFalsy : Option String → Bool
  | none => true
  | some s => s == ""

/-- JS `String.prototype.split` with a single-character separator, on
character lists: splits at every separator occurrence, keeping empty
segments, never returning an empty list of segments. -/
def jsSplitChar (c : Char) : List Char → List Char → List (List Char)
  | [], acc => [acc.reverse]
  | x :: xs, acc =>
    if x = c then acc.reverse :: jsSplitChar c xs []
    else jsSplitChar c xs (x :: acc)

/-- Last segment of an href: `href.split('/').slice(-1)[0]`
(get.ts lines 122-123). -/
def webhookRef (href : String) : String :=
  String.mk ((jsSplitChar '/' href.toList []).getLastD [])

/-- Webhook link extraction for one index (get.ts lines 119-128): with no
assignment, both refs are `null`; otherwise the refs come from the first
assignment's link relations, and a missing relation makes the JS code throw
(`.href` of `undefined`). -/
def extractRefsOne : List ContentTypeAssignment → Except String (Option String × Option String)
  | [] => .ok (none, none)
  | t :: _ =>
    match t.links.activeContentWebhook with
    | none => .error "TypeError: cannot read href of undefined"
    | some activeHref =>
      match t.links.archivedContentWebhook with
      | none => .error "TypeError: cannot read href of undefined"
      | some archivedHref =>
        .ok (some (webhookRef activeHref), some (webhookRef archivedHref))

/-- The `forEach` of get.ts lines 119-128 over all indexes, producing the
positional arrays `activeContentWebhooks` and `archivedContentWebhooks`. -/
def extractWebhookRefs : List (List ContentTypeAssignment) →
    Except String (List (Option String) × List (Option String))
  | [] => .ok ([], [])
  | types :: rest =>
    match extractRefsOne types with
    | .error e => .error e
    | .ok pair =>
      match extractWebhookRefs rest with
      | .error e => .error e
      | .ok (as, bs) => .ok (pair.1 :: as, pair.2 :: bs)

/-- `item ? hub.related.webhooks.get(item) : null` (get.ts lines 132, 135):
JS truthiness — both the `null` marker and the empty string (a ref derived
from an href ending in the separator) are falsy and pass through as `null`
without a network call; only a non-empty ref is fetched. -/
def resolveWebhook (env : FetchEnv) : Option String → Except String (Option Webhook)
  | some id => if id = "" then .ok none else (env.getWebhook id).map some
  | none => .ok none

/-- First replica loop (get.ts lines 148-156): for each index in input order,
await `Promise.all` of the by-name lookups of its declared replica names
(or push `[]` when there are none) before moving to the next index.  Returns
the per-index results together with the per-index blocks of issued fetches. -/
def getReplicaDetailsLoop (env : FetchEnv) :
    List (List String) → Except String (List (List IndexSummary) × List (List FetchEvent))
  | [] => .ok ([], [])
  | names :: rest =>
    match (if names.length > 0 then promiseAll (names.map env.getIndexByName) else .ok []) with
    | .error e => .error e
    | .ok batch =>
      match getReplicaDetailsLoop env rest with
      | .error e => .error e
      | .ok (batches, trace) =>
        .ok (batch :: batches, (names.map FetchEvent.byName) :: trace)

/-- Second replica loop (get.ts lines 162-172): for each index in input order,
await `Promise.all` of the settings fetches of its resolved replica indexes
(or push `[]` when there are none).  Returns per-index results and per-index
blocks of issued fetches. -/
def getReplicaSettingsLoop (env : FetchEnv) :
    List (List IndexSummary) → Except String (List (List IndexSettings) × List (List FetchEvent))
  | [] => .ok ([], [])
  | summaries :: rest =>
    match (if summaries.length > 0 then
        promiseAll (summaries.map fun s => env.getIndexSettings s.id) else .ok []) with
    | .error e => .error e
    | .ok batch =>
      match getReplicaSettingsLoop env rest with
      | .error e => .error e
      | .ok (batches, trace) =>
        .ok (batch :: batches, (summaries.map fun s => FetchEvent.settings s.id) :: trace)

/-- Both replica-expansion stages in source order (get.ts lines 146-172):
all by-name lookups first (one index at a time), then all replica settings
fetches (one index at a time).  The third component is the flattened trace of
issued fetches in begin order. -/
def replicaStagesRun (env : FetchEnv) (replicas : List (List String)) :
    Except String (List (List IndexSummary) × List (List IndexSettings) × List FetchEvent) :=
  match getReplicaDetailsLoop env replicas with
  | .error e => .error e
  | .ok (replicaIndexesList, t1) =>
    match getReplicaSettingsLoop env replicaIndexesList with
    | .error e => .error e
    | .ok (replicaIndexSettingsList, t2) =>
      .ok (replicaIndexesList, replicaIndexSettingsList, t1.flatten ++ t2.flatten)

/-- `replicasSettings` for one index (get.ts lines 179-183): map over the
fetched replica settings, pairing position `j` with `replicaIndexesList[i][j]`
and `replicas[i][j]`; a JS out-of-range access yields `undefined`, rendered
here by the defaults of `headD`. -/
def buildReplicasSettings : List IndexSettings → List IndexSummary → List String →
    List ReplicaSettingsEntry
  | [], _, _ => []
  | x :: xs, replicaIdx, names =>
    { id := (replicaIdx.headD default).id, name := names.headD "", settings := x } ::
      buildReplicasSettings xs replicaIdx.tail names.tail

/-- One exported entry (get.ts lines 186-198): the index entry for a
non-replica index, with `assignedContentTypes` attached to `indexDetails` only
when at least one assignment exists (line 196). -/
def mkIndexEntry (item : IndexSummary) (settings : IndexSettings)
    (assigned : List ContentTypeAssignment) (activePayload archivedPayload : Option String)
    (names : List String) (replicaIdx : List IndexSummary) (replicaSet : List IndexSettings) :
    IndexEntry :=
  { id := item.id
    indexDetails :=
      { id := item.id
        name := item.name
        parentId := item.parentId
        assignedContentTypes := if assigned.length > 0 then some assigned else none }
    settings := settings
    replicasSettings := buildReplicasSettings replicaSet replicaIdx names
    activeContentWebhook := activePayload
    archivedContentWebhook := archivedPayload }

/-- The final `forEach` (get.ts lines 175-202): walk the index list in input
order, keep an entry exactly when `!item.parentId`, and read the positionally
parallel arrays at the same index (rendered by `headD`/`tail` lockstep). -/
def buildEntries : List IndexSummary → List IndexSettings → List (List ContentTypeAssignment) →
    List (Option String) → List (Option String) → List (List String) →
    List (List IndexSummary) → List (List IndexSettings) → List IndexEntry
  | [], _, _, _, _, _, _, _ => []
  | item :: items, sl, al, ap, bp, rep, ri, rs =>
    let rest := buildEntries items sl.tail al.tail ap.tail bp.tail rep.tail ri.tail rs.tail
    if jsStringFalsy item.parentId then
      mkIndexEntry item (sl.headD default) (al.headD []) (ap.headD none) (bp.headD none)
        (rep.headD []) (ri.headD []) (rs.headD []) :: rest
    else rest

/-- The platform path separator (`path.sep`); POSIX `/`. -/
def pathSep : String := "/"

/-- Drop trailing separators of a raw path, character-list form. -/
def dropTrailingSeps (l : List Char) : List Char :=
  (l.reverse.dropWhile (fun c => c == '/')).reverse

/-- The part after the last separator, character-list form. -/
def lastComponent (l : List Char) : List Char :=
  (l.reverse.takeWhile (fun c => c != '/')).reverse

/-- Node `path.basename(p, ext)`: the last path component of `p` (ignoring
trailing separators), with a trailing `ext` stripped when the component ends
with `ext` but is not `ext` itself. -/
def pathBasename (p ext : String) : String :=
  let b := lastComponent (dropTrailingSeps p.toList)
  let e := ext.toList
  if e.isSuffixOf b ∧ b ≠ e then String.mk (b.take (b.length - e.length)) else String.mk b

/-- `outputDir.substr(-1) === path.sep` stripping of get.ts lines 63-65:
remove one trailing separator when the last character is the separator. -/
def jsStripTrailingSep (s : String) : String :=
  if s.toList.getLast? = some '/' then String.mk s.toList.dropLast else s

/-- The target path of `processIndexes` (get.ts lines 62-68):
`dir + path.sep + path.basename('indexes-id-name', '.json') + '.json'`. -/
def uniqueFilename (outputDir : String) (hub : Hub) : String :=
  let dir := jsStripTrailingSep outputDir
  let file := pathBasename ("indexes-" ++ hub.id ++ "-" ++ hub.name) ".json"
  dir ++ pathSep ++ file ++ ".json"

/-- Outcome of an export run that did not reject: either the file was written
with the given content, or the user declined the overwrite and nothing was
exported (`nothingExportedExit`, modelled from the spec: export.service is not
under src/; per the spec a declined overwrite is a clean early termination
with a zero-error exit status and a nothing-exported notice). -/
inductive ExportResult where
  | nothingExported
  | exported (path : String) (content : List IndexEntry)
deriving DecidableEq, Repr

/-- `processIndexes` (get.ts lines 60-77): build the target path, ask the
overwrite gate, and either write the JSON file or end with the
nothing-exported outcome. -/
def processIndexes (env : FetchEnv) (outputDir : String) (hubToExport : Hub)
    (indexes : List IndexEntry) : Except String ExportResult :=
  let target := uniqueFilename outputDir hubToExport
  if env.promptToExportSettings target then .ok (.exported target indexes)
  else .ok .nothingExported

/-- The export handler (get.ts lines 79-206) as a pure pipeline over the
fetch environment; the trace component of `replicaStagesRun` is discarded
here and examined by the ordering claims. -/
def handler (env : FetchEnv) (dir : String) : Except String ExportResult := do
  let hub ← env.getHub
  let indexesListDetails ← env.getIdexesDetailsList
  let finalIndexesListDetails ←
    if indexesListDetails.length > 0 then do
      let settingsList ← promiseAll
        (indexesListDetails.map fun item => env.getIndexSettings item.id)
      let assignedContentTypesList ← promiseAll
        (indexesListDetails.map fun item => env.getIndexAssignedContentTypes item.id)
      let (activeContentWebhooks, archivedContentWebhooks) ←
        extractWebhookRefs assignedContentTypesList
      let activeContentWebhooksList ← promiseAll
        (activeContentWebhooks.map (resolveWebhook env))
      let archivedContentWebhooksList ← promiseAll
        (archivedContentWebhooks.map (resolveWebhook env))
      let activeContentWebhooksPayload :=
        activeContentWebhooksList.map fun x => x.map fun w => w.customPayload.value
      let archivedContentWebhooksPayload :=
        archivedContentWebhooksList.map fun x => x.map fun w => w.customPayload.value
      let replicas := settingsList.map fun settings => settings.replicas.getD []
      let (replicaIndexesList, replicaIndexSettingsList, _) ← replicaStagesRun env replicas
      pure (buildEntries indexesListDetails settingsList assignedContentTypesList
        activeContentWebhooksPayload archivedContentWebhooksPayload replicas
        replicaIndexesList replicaIndexSettingsList)
    else pure []
  processIndexes env dir hub finalIndexesListDetails

/-- The file written by a finished run: `some (path, content)` exactly when
`writeJsonToFile` was reached. -/
def writtenFile : Except String ExportResult → Option (String × List IndexEntry)
  | .ok (.exported p c) => some (p, c)
  | _ => none

/-- The summary data an exported entry retains of its listing item. -/
def entrySummary (e : IndexEntry) : IndexSummary :=
  ⟨e.indexDetails.id, e.indexDetails.name, e.indexDetails.parentId⟩

/-! Concrete test environments used by witnesses and counterexamples. -/

/-- Listing entry of the primary index of the running example. -/
def idxA1 : IndexSummary := ⟨"i1", "Main", none⟩

/-- Listing entry of the replica index of the running example. -/
def idxA2 : IndexSummary := ⟨"i2", "MainReplica", some "i1"⟩

/-- Listing entry of a second top-level index with no replicas field. -/
def idxA3 : IndexSummary := ⟨"i3", "Other", none⟩

/-- The single content-type assignment of index i1 in the running example. -/
def asgA1 : ContentTypeAssignment :=
  ⟨"schema-ct1", ⟨some "https://api/webhooks/wa1", some "https://api/webhooks/wb1"⟩⟩

/-- Running example environment: the spec §8 scenario extended with a second
top-level index whose settings have no replicas field. -/
def envA : FetchEnv where
  getHub := .ok ⟨"h1", "Acme"⟩
  getIdexesDetailsList := .ok [idxA1, idxA2, idxA3]
  getIndexSettings := fun id =>
    if id = "i1" then .ok ⟨some ["MainReplica"], "s1"⟩
    else if id = "i2" then .ok ⟨none, "s2"⟩
    else if id = "i3" then .ok ⟨none, "s3"⟩
    else .error "404"
  getIndexAssignedContentTypes := fun id =>
    if id = "i1" then .ok [asgA1]
    else if id = "i2" then .ok []
    else if id = "i3" then .ok []
    else .error "404"
  getIndexByName := fun n => if n = "MainReplica" then .ok idxA2 else .error "404"
  getWebhook := fun id =>
    if id = "wa1" then .ok ⟨⟨"payloadA"⟩⟩
    else if id = "wb1" then .ok ⟨⟨"payloadB"⟩⟩
    else .error "404"
  promptToExportSettings := fun _ => true

/-- The exported entry of index i1 in the running example. -/
def entryA1 : IndexEntry :=
  { id := "i1"
    indexDetails := ⟨"i1", "Main", none, some [asgA1]⟩
    settings := ⟨some ["MainReplica"], "s1"⟩
    replicasSettings := [⟨"i2", "MainReplica", ⟨none, "s2"⟩⟩]
    activeContentWebhook := some "payloadA"
    archivedContentWebhook := some "payloadB" }

/-- The exported entry of index i3 in the running example. -/
def entryA3 : IndexEntry :=
  { id := "i3"
    indexDetails := ⟨"i3", "Other", none, none⟩
    settings := ⟨none, "s3"⟩
    replicasSettings := []
    activeContentWebhook := none
    archivedContentWebhook := none }

/-- The running example with the settings fetch of index i1 rejecting. -/
def envFail : FetchEnv :=
  { envA with
    getIndexSettings := fun id =>
      if id = "i1" then .error "network down" else envA.getIndexSettings id }

/-- A single index whose parentId is present but is the empty string. -/
def idxC1 : IndexSummary := ⟨"i1", "A", some ""⟩

/-- Environment with one index whose parentId is the empty string. -/
def envC1 : FetchEnv where
  getHub := .ok ⟨"h", "H"⟩
  getIdexesDetailsList := .ok [idxC1]
  getIndexSettings := fun _ => .ok ⟨none, "s"⟩
  getIndexAssignedContentTypes := fun _ => .ok []
  getIndexByName := fun _ => .error "404"
  getWebhook := fun _ => .error "404"
  promptToExportSettings := fun _ => true

/-- Environment with one index whose single assignment lacks the
active-content-webhook link relation. -/
def envC4x : FetchEnv where
  getHub := .ok ⟨"h", "H"⟩
  getIdexesDetailsList := .ok [⟨"i1", "Main", none⟩]
  getIndexSettings := fun _ => .ok ⟨none, "s"⟩
  getIndexAssignedContentTypes := fun _ =>
    .ok [⟨"ct1", ⟨none, some "https://api/webhooks/w1"⟩⟩]
  getIndexByName := fun _ => .error "404"
  getWebhook := fun _ => .error "404"
  promptToExportSettings := fun _ => true

/-- First assignment of the two-assignment example. -/
def asgC5a : ContentTypeAssignment :=
  ⟨"ct-a", ⟨some "https://api/webhooks/wa", some "https://api/webhooks/wb"⟩⟩

/-- Second assignment of the two-assignment example. -/
def asgC5b : ContentTypeAssignment :=
  ⟨"ct-b", ⟨some "https://api/webhooks/wc", some "https://api/webhooks/wd"⟩⟩

/-- Environment with one index carrying two content-type assignments; only
the first assignment's webhooks resolve. -/
def envC5x : FetchEnv where
  getHub := .ok ⟨"h", "H"⟩
  getIdexesDetailsList := .ok [⟨"i1", "Main", none⟩]
  getIndexSettings := fun _ => .ok ⟨none, "s"⟩
  getIndexAssignedContentTypes := fun _ => .ok [asgC5a, asgC5b]
  getIndexByName := fun _ => .error "404"
  getWebhook := fun id =>
    if id = "wa" then .ok ⟨⟨"pa"⟩⟩
    else if id = "wb" then .ok ⟨⟨"pb"⟩⟩
    else .error "404"
  promptToExportSettings := fun _ => true

/-- The entry exported by `envC5x`. -/
def entryC5 : IndexEntry :=
  { id := "i1"
    indexDetails := ⟨"i1", "Main", none, some [asgC5a, asgC5b]⟩
    settings := ⟨none, "s"⟩
    replicasSettings := []
    activeContentWebhook := some "pa"
    archivedContentWebhook := some "pb" }

/-- First top-level index of the two-replica ordering example. -/
def idxC7a : IndexSummary := ⟨"i1", "One", none⟩

/-- Second top-level index of the two-replica ordering example. -/
def idxC7b : IndexSummary := ⟨"i2", "Two", none⟩

/-- Replica of the first index, resolved by name r1. -/
def repC7a : IndexSummary := ⟨"ir1", "r1", some "i1"⟩

/-- Replica of the second index, resolved by name r2. -/
def repC7b : IndexSummary := ⟨"ir2", "r2", some "i2"⟩

/-- Environment with two top-level indexes, each declaring one replica. -/
def envC7x : FetchEnv where
  getHub := .ok ⟨"h", "H"⟩
  getIdexesDetailsList := .ok [idxC7a, idxC7b]
  getIndexSettings := fun id =>
    if id = "i1" then .ok ⟨some ["r1"], "s1"⟩
    else if id = "i2" then .ok ⟨some ["r2"], "s2"⟩
    else if id = "ir1" then .ok ⟨none, "rs1"⟩
    else if id = "ir2" then .ok ⟨none, "rs2"⟩
    else .error "404"
  getIndexAssignedContentTypes := fun _ => .ok []
  getIndexByName := fun n =>
    if n = "r1" then .ok repC7a else if n = "r2" then .ok repC7b else .error "404"
  getWebhook := fun _ => .error "404"
  promptToExportSettings := fun _ => true

/-- The running example with the overwrite prompt declined. -/
def envPromptFalse : FetchEnv :=
  { envC1 with promptToExportSettings := fun _ => false }

theorem exceptBind_ok {α β : Type} (a : α) (f : α → Except String β) :
    (Except.ok a >>= f) = f a := rfl

theorem exceptBind_err {α β : Type} (e : String) (f : α → Except String β) :
    ((Except.error e : Except String α) >>= f) = Except.error e := rfl

theorem getD_tail {α : Type} (l : List α) (i : Nat) (d : α) :
    l.tail.getD i d = l.getD (i + 1) d := by
  cases l <;> simp [List.getD]

theorem headD_eq_getD {α : Type} (l : List α) (d : α) : l.headD d = l.getD 0 d := by
  cases l <;> simp [List.getD]

theorem promiseAll_ok_length {α : Type} {l : List (Except String α)} {ys : List α}
    (h : promiseAll l = .ok ys) : ys.length = l.length := by
  induction l generalizing ys with
  | nil =>
    simp only [promiseAll, Except.ok.injEq] at h
    subst h; rfl
  | cons x xs ih =>
    cases hx : x with
    | error e => rw [hx] at h; simp [promiseAll] at h
    | ok v =>
      cases hxs : promiseAll xs with
      | error e => rw [hx] at h; simp [promiseAll, hxs] at h
      | ok vs =>
        rw [hx] at h
        simp only [promiseAll, hxs, Except.ok.injEq] at h
        subst h
        simp [ih hxs]

theorem promiseAll_map_ok_mem {α β : Type} {f : β → Except String α} {l : List β} {ys : List α}
    (h : promiseAll (l.map f) = .ok ys) : ∀ b ∈ l, ∃ v, f b = .ok v := by
  induction l generalizing ys with
  | nil => intro b hb; cases hb
  | cons x xs ih =>
    intro b hb
    rw [List.map_cons] at h
    cases hx : f x with
    | error e => simp [promiseAll, hx] at h
    | ok v =>
      cases hxs : promiseAll (xs.map f) with
      | error e => simp [promiseAll, hx, hxs] at h
      | ok vs =>
        rcases List.mem_cons.mp hb with rfl | hb2
        · exact ⟨v, hx⟩
        · exact ih hxs b hb2

theorem promiseAll_map_ok_getD {α β : Type} {f : β → Except String α} {l : List β} {ys : List α}
    (h : promiseAll (l.map f) = .ok ys) (d : β) (d' : α) :
    ∀ i, i < l.length → f (l.getD i d) = .ok (ys.getD i d') := by
  induction l generalizing ys with
  | nil => intro i hi; exact absurd hi (Nat.not_lt_zero i)
  | cons x xs ih =>
    rw [List.map_cons] at h
    cases hx : f x with
    | error e => simp [promiseAll, hx] at h
    | ok v =>
      cases hxs : promiseAll (xs.map f) with
      | error e => simp [promiseAll, hx, hxs] at h
      | ok vs =>
        simp only [promiseAll, hx, hxs, Except.ok.injEq] at h
        subst h
        intro i hi
        cases i with
        | zero => simpa [List.getD] using hx
        | succ j =>
          exact ih hxs j (by simpa using Nat.lt_of_succ_lt_succ hi)

theorem extractWebhookRefs_ok {al : List (List ContentTypeAssignment)}
    {ar br : List (Option String)} (h : extractWebhookRefs al = .ok (ar, br)) :
    ar.length = al.length ∧ br.length = al.length ∧
      ∀ i, i < al.length →
        extractRefsOne (al.getD i []) = .ok (ar.getD i none, br.getD i none) := by
  induction al generalizing ar br with
  | nil =>
    simp only [extractWebhookRefs, Except.ok.injEq, Prod.mk.injEq] at h
    obtain ⟨h1, h2⟩ := h
    subst h1; subst h2
    exact ⟨rfl, rfl, fun i hi => absurd hi (Nat.not_lt_zero i)⟩
  | cons types rest ih =>
    cases hx : extractRefsOne types with
    | error e => simp [extractWebhookRefs, hx] at h
    | ok pair =>
      cases hrest : extractWebhookRefs rest with
      | error e => simp [extractWebhookRefs, hx, hrest] at h
      | ok p2 =>
        obtain ⟨as, bs⟩ := p2
        simp only [extractWebhookRefs, hx, hrest, Except.ok.injEq, Prod.mk.injEq] at h
        obtain ⟨h1, h2⟩ := h
        subst h1; subst h2
        obtain ⟨hl1, hl2, hget⟩ := ih hrest
        refine ⟨by simp [hl1], by simp [hl2], ?_⟩
        intro i hi
        cases i with
        | zero => simpa [List.getD] using hx
        | succ j =>
          simpa [List.getD_cons_succ] using hget j (Nat.lt_of_succ_lt_succ hi)

theorem loopBatchByName_eq (env : FetchEnv) (names : List String) :
    (if names.length > 0 then promiseAll (names.map env.getIndexByName)
      else (.ok [] : Except String (List IndexSummary))) =
      promiseAll (names.map env.getIndexByName) := by
  cases names <;> simp [promiseAll]

theorem loopBatchSettings_eq (env : FetchEnv) (summaries : List IndexSummary) :
    (if summaries.length > 0 then promiseAll (summaries.map fun s => env.getIndexSettings s.id)
      else (.ok [] : Except String (List IndexSettings))) =
      promiseAll (summaries.map fun s => env.getIndexSettings s.id) := by
  cases summaries <;> simp [promiseAll]

theorem getReplicaDetailsLoop_ok {env : FetchEnv} {reps : List (List String)}
    {ri : List (List IndexSummary)} {t1 : List (List FetchEvent)}
    (h : getReplicaDetailsLoop env reps = .ok (ri, t1)) :
    ri.length = reps.length ∧
      t1 = reps.map (fun names => names.map FetchEvent.byName) ∧
      ∀ i, i < reps.length →
        promiseAll ((reps.getD i []).map env.getIndexByName) = .ok (ri.getD i []) := by
  induction reps generalizing ri t1 with
  | nil =>
    simp only [getReplicaDetailsLoop, Except.ok.injEq, Prod.mk.injEq] at h
    obtain ⟨h1, h2⟩ := h
    subst h1; subst h2
    exact ⟨rfl, rfl, fun i hi => absurd hi (Nat.not_lt_zero i)⟩
  | cons names rest ih =>
    rw [getReplicaDetailsLoop, loopBatchByName_eq] at h
    cases hb : promiseAll (names.map env.getIndexByName) with
    | error e => rw [hb] at h; simp at h
    | ok batch =>
      rw [hb] at h
      cases hrest : getReplicaDetailsLoop env rest with
      | error e => rw [hrest] at h; simp at h
      | ok p2 =>
        obtain ⟨batches, trace⟩ := p2
        rw [hrest] at h
        simp only [Except.ok.injEq, Prod.mk.injEq] at h
        obtain ⟨h1, h2⟩ := h
        subst h1; subst h2
        obtain ⟨hl, ht, hget⟩ := ih hrest
        refine ⟨by simp [hl], by simp [ht], ?_⟩
        intro i hi
        cases i with
        | zero => simpa [List.getD] using hb
        | succ j =>
          simpa [List.getD_cons_succ] using hget j (Nat.lt_of_succ_lt_succ hi)

theorem getReplicaSettingsLoop_ok {env : FetchEnv} {rl : List (List IndexSummary)}
    {rs : List (List IndexSettings)} {t2 : List (List FetchEvent)}
    (h : getReplicaSettingsLoop env rl = .ok (rs, t2)) :
    rs.length = rl.length ∧
      t2 = rl.map (fun blk => blk.map fun s => FetchEvent.settings s.id) ∧
      ∀ i, i < rl.length →
        promiseAll ((rl.getD i []).map fun s => env.getIndexSettings s.id) = .ok (rs.getD i []) := by
  induction rl generalizing rs t2 with
  | nil =>
    simp only [getReplicaSettingsLoop, Except.ok.injEq, Prod.mk.injEq] at h
    obtain ⟨h1, h2⟩ := h
    subst h1; subst h2
    exact ⟨rfl, rfl, fun i hi => absurd hi (Nat.not_lt_zero i)⟩
  | cons summaries rest ih =>
    rw [getReplicaSettingsLoop, loopBatchSettings_eq] at h
    cases hb : promiseAll (summaries.map fun s => env.getIndexSettings s.id) with
    | error e => rw [hb] at h; simp at h
    | ok batch =>
      rw [hb] at h
      cases hrest : getReplicaSettingsLoop env rest with
      | error e => rw [hrest] at h; simp at h
      | ok p2 =>
        obtain ⟨batches, trace⟩ := p2
        rw [hrest] at h
        simp only [Except.ok.injEq, Prod.mk.injEq] at h
        obtain ⟨h1, h2⟩ := h
        subst h1; subst h2
        obtain ⟨hl, ht, hget⟩ := ih hrest
        refine ⟨by simp [hl], by simp [ht], ?_⟩
        intro i hi
        cases i with
        | zero => simpa [List.getD] using hb
        | succ j =>
          simpa [List.getD_cons_succ] using hget j (Nat.lt_of_succ_lt_succ hi)

theorem buildReplicasSettings_map_name {xs : List IndexSettings} {replicaIdx : List IndexSummary}
    {names : List String} (h : names.length = xs.length) :
    (buildReplicasSettings xs replicaIdx names).map (fun r => r.name) = names := by
  induction xs generalizing replicaIdx names with
  | nil =>
    cases names with
    | nil => rfl
    | cons n ns => cases h
  | cons x xs ih =>
    cases names with
    | nil => cases h
    | cons n ns =>
      simp only [buildReplicasSettings, List.map_cons, List.headD_cons, List.tail_cons]
      have hn : ns.length = xs.length := by simpa using h
      simp [ih hn]

theorem buildReplicasSettings_length (xs : List IndexSettings) (replicaIdx : List IndexSummary)
    (names : List String) : (buildReplicasSettings xs replicaIdx names).length = xs.length := by
  induction xs generalizing replicaIdx names with
  | nil => rfl
  | cons x xs ih => simp [buildReplicasSettings, ih]

theorem entrySummary_mkIndexEntry (item : IndexSummary) (settings : IndexSettings)
    (assigned : List ContentTypeAssignment) (ap bp : Option String) (names : List String)
    (replicaIdx : List IndexSummary) (replicaSet : List IndexSettings) :
    entrySummary (mkIndexEntry item settings assigned ap bp names replicaIdx replicaSet) = item := by
  cases item; rfl

theorem buildEntries_map_entrySummary (items : List IndexSummary) (sl : List IndexSettings)
    (al : List (List ContentTypeAssignment)) (ap bp : List (Option String))
    (rep : List (List String)) (ri : List (List IndexSummary)) (rs : List (List IndexSettings)) :
    (buildEntries items sl al ap bp rep ri rs).map entrySummary =
      items.filter (fun it => jsStringFalsy it.parentId) := by
  induction items generalizing sl al ap bp rep ri rs with
  | nil => rfl
  | cons item items ih =>
    cases hp : jsStringFalsy item.parentId with
    | true =>
      simp only [buildEntries, hp, if_true, List.map_cons, List.filter_cons, ih,
        entrySummary_mkIndexEntry]
    | false =>
      simp only [buildEntries, hp, Bool.false_eq_true, if_false, List.filter_cons, ih]

theorem buildEntries_mem {e : IndexEntry} {items : List IndexSummary} {sl : List IndexSettings}
    {al : List (List ContentTypeAssignment)} {ap bp : List (Option String)}
    {rep : List (List String)} {ri : List (List IndexSummary)} {rs : List (List IndexSettings)}
    (h : e ∈ buildEntries items sl al ap bp rep ri rs) :
    ∃ i, i < items.length ∧ jsStringFalsy (items.getD i default).parentId = true ∧
      e = mkIndexEntry (items.getD i default) (sl.getD i default) (al.getD i [])
        (ap.getD i none) (bp.getD i none) (rep.getD i []) (ri.getD i []) (rs.getD i []) := by
  induction items generalizing sl al ap bp rep ri rs with
  | nil => cases h
  | cons item items ih =>
    cases hp : jsStringFalsy item.parentId with
    | true =>
      rw [buildEntries] at h
      rw [hp] at h
      simp only [if_true] at h
      rcases List.mem_cons.mp h with he | he
      · refine ⟨0, Nat.succ_pos _, by simpa [List.getD] using hp, ?_⟩
        rw [he]
        simp only [List.getD_cons_zero, headD_eq_getD]
      · obtain ⟨i, hi, hf, hee⟩ := ih he
        refine ⟨i + 1, Nat.succ_lt_succ hi, by simpa [List.getD_cons_succ] using hf, ?_⟩
        rw [hee]
        simp [getD_tail, List.getD_cons_succ]
    | false =>
      rw [buildEntries] at h
      rw [hp] at h
      simp only [Bool.false_eq_true, if_false] at h
      obtain ⟨i, hi, hf, hee⟩ := ih h
      refine ⟨i + 1, Nat.succ_lt_succ hi, by simpa [List.getD_cons_succ] using hf, ?_⟩
      rw [hee]
      simp [getD_tail, List.getD_cons_succ]

theorem getD_map_lt {α β : Type} (f : α → β) {l : List α} {i : Nat} (hi : i < l.length)
    (d : α) (d' : β) : (l.map f).getD i d' = f (l.getD i d) := by
  induction l generalizing i with
  | nil => cases hi
  | cons x xs ih =>
    cases i with
    | zero => rfl
    | succ j =>
      simp only [List.map_cons, List.getD_cons_succ]
      exact ih (Nat.lt_of_succ_lt_succ hi)

theorem mem_getD {α : Type} {a : α} {l : List α} (h : a ∈ l) (d : α) :
    ∃ i, i < l.length ∧ l.getD i d = a := by
  induction l with
  | nil => cases h
  | cons x xs ih =>
    rcases List.mem_cons.mp h with rfl | h2
    · exact ⟨0, Nat.succ_pos _, rfl⟩
    · obtain ⟨i, hi, he⟩ := ih h2
      exact ⟨i + 1, Nat.succ_lt_succ hi, he⟩

theorem processIndexes_exported {env : FetchEnv} {outputDir : String} {hub : Hub}
    {indexes : List IndexEntry} {p : String} {entries : List IndexEntry}
    (h : processIndexes env outputDir hub indexes = .ok (.exported p entries)) :
    entries = indexes ∧ p = uniqueFilename outputDir hub ∧
      env.promptToExportSettings (uniqueFilename outputDir hub) = true := by
  simp only [processIndexes] at h
  cases hp : env.promptToExportSettings (uniqueFilename outputDir hub) with
  | true =>
    simp only [hp, if_true, Except.ok.injEq, ExportResult.exported.injEq] at h
    exact ⟨h.2.symm, h.1.symm, rfl⟩
  | false =>
    simp only [hp, Bool.false_eq_true, if_false, Except.ok.injEq] at h
    cases h

/-- Characterization of a non-rejecting run: every stage of the pipeline
succeeded, and the outcome is `processIndexes` applied to the entries built
positionally from the stage results. -/
theorem handler_ok_spec {env : FetchEnv} {dir : String} {r : ExportResult}
    (h : handler env dir = .ok r) :
    ∃ hub idxs sl al ar br awl bwl ri rs t1 t2,
      env.getHub = .ok hub ∧
      env.getIdexesDetailsList = .ok idxs ∧
      promiseAll (idxs.map fun item => env.getIndexSettings item.id) = .ok sl ∧
      promiseAll (idxs.map fun item => env.getIndexAssignedContentTypes item.id) = .ok al ∧
      extractWebhookRefs al = .ok (ar, br) ∧
      promiseAll (ar.map (resolveWebhook env)) = .ok awl ∧
      promiseAll (br.map (resolveWebhook env)) = .ok bwl ∧
      getReplicaDetailsLoop env (sl.map fun s => s.replicas.getD []) = .ok (ri, t1) ∧
      getReplicaSettingsLoop env ri = .ok (rs, t2) ∧
      processIndexes env dir hub
        (buildEntries idxs sl al
          (awl.map fun x => x.map fun w => w.customPayload.value)
          (bwl.map fun x => x.map fun w => w.customPayload.value)
          (sl.map fun s => s.replicas.getD []) ri rs) = .ok r := by
  unfold handler at h
  cases hhub : env.getHub with
  | error e => rw [hhub, exceptBind_err] at h; cases h
  | ok hub =>
  rw [hhub, exceptBind_ok] at h
  cases hidx : env.getIdexesDetailsList with
  | error e => rw [hidx, exceptBind_err] at h; cases h
  | ok idxs =>
  rw [hidx, exceptBind_ok] at h
  cases idxs with
  | nil =>
    simp only [List.length_nil, Nat.lt_irrefl, if_false, gt_iff_lt, exceptBind_ok, pure] at h
    exact ⟨hub, [], [], [], [], [], [], [], [], [], [], [], rfl, rfl, rfl, rfl, rfl, rfl, rfl,
      rfl, rfl, by simpa [buildEntries] using h⟩
  | cons idx0 idxrest =>
  simp only [List.length_cons, Nat.succ_pos, if_true, gt_iff_lt, Nat.zero_lt_succ] at h
  cases hsl : promiseAll ((idx0 :: idxrest).map fun item => env.getIndexSettings item.id) with
  | error e => rw [hsl, exceptBind_err] at h; cases h
  | ok sl =>
  rw [hsl, exceptBind_ok] at h
  cases hal : promiseAll
      ((idx0 :: idxrest).map fun item => env.getIndexAssignedContentTypes item.id) with
  | error e => rw [hal, exceptBind_err] at h; cases h
  | ok al =>
  rw [hal, exceptBind_ok] at h
  cases hwr : extractWebhookRefs al with
  | error e => rw [hwr, exceptBind_err] at h; cases h
  | ok refs =>
  obtain ⟨ar, br⟩ := refs
  rw [hwr, exceptBind_ok] at h
  cases hawl : promiseAll (ar.map (resolveWebhook env)) with
  | error e => rw [hawl, exceptBind_err] at h; cases h
  | ok awl =>
  rw [hawl, exceptBind_ok] at h
  cases hbwl : promiseAll (br.map (resolveWebhook env)) with
  | error e => rw [hbwl, exceptBind_err] at h; cases h
  | ok bwl =>
  rw [hbwl, exceptBind_ok] at h
  cases hrd : getReplicaDetailsLoop env (sl.map fun s => s.replicas.getD []) with
  | error e => simp only [replicaStagesRun, hrd, exceptBind_err] at h; cases h
  | ok p1 =>
  obtain ⟨ri, t1⟩ := p1
  cases hrs : getReplicaSettingsLoop env ri with
  | error e => simp only [replicaStagesRun, hrd, hrs, exceptBind_err] at h; cases h
  | ok p2 =>
  obtain ⟨rs, t2⟩ := p2
  simp only [replicaStagesRun, hrd, hrs, exceptBind_ok, pure] at h
  exact ⟨hub, idx0 :: idxrest, sl, al, ar, br, awl, bwl, ri, rs, t1, t2, rfl, rfl, hsl, hal,
    hwr, hawl, hbwl, hrd, hrs, h⟩

/-- Every exported entry corresponds to one input position: all its fields
are determined by the environment's answers for that position's index. -/
theorem handler_entry_spec {env : FetchEnv} {dir p : String} {entries : List IndexEntry}
    {e : IndexEntry} (h : handler env dir = .ok (.exported p entries)) (he : e ∈ entries) :
    ∃ item s asg aro bro awo bwo ridx rset,
      jsStringFalsy item.parentId = true ∧
      env.getIndexSettings item.id = .ok s ∧
      env.getIndexAssignedContentTypes item.id = .ok asg ∧
      extractRefsOne asg = .ok (aro, bro) ∧
      resolveWebhook env aro = .ok awo ∧
      resolveWebhook env bro = .ok bwo ∧
      promiseAll ((s.replicas.getD []).map env.getIndexByName) = .ok ridx ∧
      promiseAll (ridx.map fun x => env.getIndexSettings x.id) = .ok rset ∧
      e = mkIndexEntry item s asg (awo.map fun w => w.customPayload.value)
        (bwo.map fun w => w.customPayload.value) (s.replicas.getD []) ridx rset := by
  obtain ⟨hub, idxs, sl, al, ar, br, awl, bwl, ri, rs, t1, t2, hhub, hidx, hsl, hal, hwr,
    hawl, hbwl, hrd, hrs, hproc⟩ := handler_ok_spec h
  obtain ⟨hent, hpath, hprompt⟩ := processIndexes_exported hproc
  subst hent
  obtain ⟨i, hi, hfalsy, hee⟩ := buildEntries_mem he
  have hlsl : sl.length = idxs.length := by
    have := promiseAll_ok_length hsl; simpa using this
  have hlal : al.length = idxs.length := by
    have := promiseAll_ok_length hal; simpa using this
  obtain ⟨hlar, hlbr, hrefget⟩ := extractWebhookRefs_ok hwr
  have hlawl : awl.length = ar.length := by
    have := promiseAll_ok_length hawl; simpa using this
  have hlbwl : bwl.length = br.length := by
    have := promiseAll_ok_length hbwl; simpa using this
  obtain ⟨hlri, ht1, hrdget⟩ := getReplicaDetailsLoop_ok hrd
  obtain ⟨hlrs, ht2, hrsget⟩ := getReplicaSettingsLoop_ok hrs
  have hs : env.getIndexSettings (idxs.getD i default).id = .ok (sl.getD i default) :=
    promiseAll_map_ok_getD hsl default default i hi
  have hasg : env.getIndexAssignedContentTypes (idxs.getD i default).id = .ok (al.getD i []) :=
    promiseAll_map_ok_getD hal default [] i hi
  have hrefs : extractRefsOne (al.getD i []) = .ok (ar.getD i none, br.getD i none) :=
    hrefget i (by rw [hlal]; exact hi)
  have hra : resolveWebhook env (ar.getD i none) = .ok (awl.getD i none) :=
    promiseAll_map_ok_getD hawl none none i (by rw [hlar, hlal]; exact hi)
  have hrb : resolveWebhook env (br.getD i none) = .ok (bwl.getD i none) :=
    promiseAll_map_ok_getD hbwl none none i (by rw [hlbr, hlal]; exact hi)
  have hisl : i < sl.length := by rw [hlsl]; exact hi
  have hnames : (sl.map fun s => s.replicas.getD []).getD i [] =
      (sl.getD i default).replicas.getD [] :=
    getD_map_lt (fun s => s.replicas.getD []) hisl default []
  have hridx : promiseAll
      (((sl.map fun s => s.replicas.getD []).getD i []).map env.getIndexByName) =
        .ok (ri.getD i []) :=
    hrdget i (by simpa using hisl)
  rw [hnames] at hridx
  have hiri : i < ri.length := by
    rw [hlri]; simpa using hisl
  have hrset : promiseAll ((ri.getD i []).map fun x => env.getIndexSettings x.id) =
      .ok (rs.getD i []) :=
    hrsget i hiri
  have hap : (awl.map fun x => x.map fun w => w.customPayload.value).getD i none =
      (awl.getD i none).map fun w => w.customPayload.value :=
    getD_map_lt (fun x : Option Webhook => x.map fun w => w.customPayload.value)
      (by rw [hlawl, hlar, hlal]; exact hi) none none
  have hbp : (bwl.map fun x => x.map fun w => w.customPayload.value).getD i none =
      (bwl.getD i none).map fun w => w.customPayload.value :=
    getD_map_lt (fun x : Option Webhook => x.map fun w => w.customPayload.value)
      (by rw [hlbwl, hlbr, hlal]; exact hi) none none
  refine ⟨idxs.getD i default, sl.getD i default, al.getD i [], ar.getD i none, br.getD i none,
    awl.getD i none, bwl.getD i none, ri.getD i [], rs.getD i [],
    hfalsy, hs, hasg, hrefs, hra, hrb, hridx, hrset, ?_⟩
  rw [hee, hap, hbp, hnames]

theorem getReplicaDetailsLoop_insert_empty (env : FetchEnv) (xs ys : List (List String)) :
    getReplicaDetailsLoop env (xs ++ ([] : List String) :: ys) =
      match getReplicaDetailsLoop env xs with
      | .error e => .error e
      | .ok (r1, t1) =>
        match getReplicaDetailsLoop env ys with
        | .error e => .error e
        | .ok (r2, t2) => .ok (r1 ++ [] :: r2, t1 ++ [] :: t2) := by
  induction xs with
  | nil =>
    simp only [List.nil_append, getReplicaDetailsLoop]
    cases hys : getReplicaDetailsLoop env ys with
    | error e => simp [promiseAll]
    | ok p2 => obtain ⟨r2, t2⟩ := p2; simp [promiseAll]
  | cons n xs ih =>
    simp only [List.cons_append]
    rw [getReplicaDetailsLoop, getReplicaDetailsLoop]
    cases hb : (if n.length > 0 then promiseAll (n.map env.getIndexByName)
        else (.ok [] : Except String (List IndexSummary))) with
    | error e => rfl
    | ok batch =>
      rw [ih]
      cases hxs : getReplicaDetailsLoop env xs with
      | error e => rfl
      | ok p1 =>
        obtain ⟨r1, t1⟩ := p1
        cases hys : getReplicaDetailsLoop env ys with
        | error e => rfl
        | ok p2 => obtain ⟨r2, t2⟩ := p2; rfl

theorem getReplicaSettingsLoop_insert_empty (env : FetchEnv)
    (xs ys : List (List IndexSummary)) :
    getReplicaSettingsLoop env (xs ++ ([] : List IndexSummary) :: ys) =
      match getReplicaSettingsLoop env xs with
      | .error e => .error e
      | .ok (r1, t1) =>
        match getReplicaSettingsLoop env ys with
        | .error e => .error e
        | .ok (r2, t2) => .ok (r1 ++ [] :: r2, t1 ++ [] :: t2) := by
  induction xs with
  | nil =>
    simp only [List.nil_append, getReplicaSettingsLoop]
    cases hys : getReplicaSettingsLoop env ys with
    | error e => simp [promiseAll]
    | ok p2 => obtain ⟨r2, t2⟩ := p2; simp [promiseAll]
  | cons n xs ih =>
    simp only [List.cons_append]
    rw [getReplicaSettingsLoop, getReplicaSettingsLoop]
    cases hb : (if n.length > 0 then promiseAll (n.map fun s => env.getIndexSettings s.id)
        else (.ok [] : Except String (List IndexSettings))) with
    | error e => rfl
    | ok batch =>
      rw [ih]
      cases hxs : getReplicaSettingsLoop env xs with
      | error e => rfl
      | ok p1 =>
        obtain ⟨r1, t1⟩ := p1
        cases hys : getReplicaSettingsLoop env ys with
        | error e => rfl
        | ok p2 => obtain ⟨r2, t2⟩ := p2; rfl

/-- C1 (counterexample): the handler keeps an index whose `parentId` is
present but equal to the empty string as a top-level entry, because the source
filters with JS truthiness (`!item.parentId`, get.ts line 177).  The claim
says an index with `parentId` set never appears as a top-level entry; here the
single exported entry is exactly such an index. -/
theorem emptyParent_topLevel_counterexample :
    handler envC1 "out" = .ok (.exported "out/indexes-h-H.json"
        [⟨"i1", ⟨"i1", "A", some "", none⟩, ⟨none, "s"⟩, [], none, none⟩]) ∧
      idxC1.parentId ≠ none := by
  exact ⟨rfl, by decide⟩

/-- C1 (amended): the exported sequence contains exactly one `IndexEntry` per
index whose `parentId` is absent or the empty string (JS falsy), in the same
relative order as the input list; an index with a non-empty `parentId` never
appears as a top-level entry. -/
theorem topLevel_entries_follow_js_falsy_filter {env : FetchEnv} {dir p : String}
    {entries : List IndexEntry} {idxs : List IndexSummary}
    (h : handler env dir = .ok (.exported p entries))
    (hidx : env.getIdexesDetailsList = .ok idxs) :
    entries.map entrySummary = idxs.filter fun it => jsStringFalsy it.parentId := by
  obtain ⟨hub, idxs2, sl, al, ar, br, awl, bwl, ri, rs, t1, t2, hhub, hidx2, hsl, hal, hwr,
    hawl, hbwl, hrd, hrs, hproc⟩ := handler_ok_spec h
  have hid : idxs2 = idxs := Except.ok.inj (hidx2.symm.trans hidx)
  rw [hid] at hproc
  obtain ⟨hent, hpath, hprompt⟩ := processIndexes_exported hproc
  rw [hent]
  exact buildEntries_map_entrySummary idxs sl al
    (awl.map fun x => x.map fun w => w.customPayload.value)
    (bwl.map fun x => x.map fun w => w.customPayload.value)
    (sl.map fun s => s.replicas.getD []) ri rs

/-- Witness for the amended C1 theorem at the running example. -/
theorem topLevel_entries_follow_js_falsy_filter_witness :
    [entryA1, entryA3].map entrySummary =
      [idxA1, idxA2, idxA3].filter fun it => jsStringFalsy it.parentId := by
  have h : handler envA "out" =
      .ok (.exported "out/indexes-h1-Acme.json" [entryA1, entryA3]) := by rfl
  have hidx : envA.getIdexesDetailsList = .ok [idxA1, idxA2, idxA3] := rfl
  exact topLevel_entries_follow_js_falsy_filter h hidx

/-- C2: for every exported entry, `replicasSettings` lists one element per
declared replica name, in declaration order, each element's name being the
name at the same position; in particular its length equals the length of the
declared list.  The embedding's `promiseAll` is positional, so this holds
independently of fetch completion order. -/
theorem replicasSettings_mirror_declared_names {env : FetchEnv} {dir p : String}
    {entries : List IndexEntry} {e : IndexEntry}
    (h : handler env dir = .ok (.exported p entries)) (he : e ∈ entries) :
    e.replicasSettings.map (fun r => r.name) = e.settings.replicas.getD [] := by
  obtain ⟨item, s, asg, aro, bro, awo, bwo, ridx, rset, hpar, hs, hasg, hrefs, hra, hrb,
    hridx, hrset, hee⟩ := handler_entry_spec h he
  have hlen1 : ridx.length = (s.replicas.getD []).length := by
    have := promiseAll_ok_length hridx; simpa using this
  have hlen2 : rset.length = ridx.length := by
    have := promiseAll_ok_length hrset; simpa using this
  have hlen : (s.replicas.getD []).length = rset.length := by rw [hlen2, hlen1]
  subst hee
  simpa [mkIndexEntry] using buildReplicasSettings_map_name hlen

/-- Witness for the C2 theorem at the running example's entry for i1. -/
theorem replicasSettings_mirror_declared_names_witness :
    entryA1.replicasSettings.map (fun r => r.name) = entryA1.settings.replicas.getD [] := by
  have h : handler envA "out" =
      .ok (.exported "out/indexes-h1-Acme.json" [entryA1, entryA3]) := by rfl
  have he : entryA1 ∈ [entryA1, entryA3] := by decide
  exact replicasSettings_mirror_declared_names h he

/-- C8: when the overwrite prompt answers false for the target path, the run
ends with the nothing-exported outcome, without error, and no file is written
(get.ts lines 70-72; the exit itself is modelled from the spec since
export.service is not under src/). -/
theorem declined_overwrite_nothing_exported {env : FetchEnv} {outputDir : String} {hub : Hub}
    {indexes : List IndexEntry}
    (hp : env.promptToExportSettings (uniqueFilename outputDir hub) = false) :
    processIndexes env outputDir hub indexes = .ok .nothingExported ∧
      writtenFile (processIndexes env outputDir hub indexes) = none := by
  have h : processIndexes env outputDir hub indexes = .ok .nothingExported := by
    simp only [processIndexes, hp, Bool.false_eq_true, if_false]
  exact ⟨h, by rw [h]; rfl⟩

/-- Witness for the C8 theorem at a declining environment. -/
theorem declined_overwrite_nothing_exported_witness :
    processIndexes envPromptFalse "out" ⟨"h", "H"⟩ [] = .ok .nothingExported ∧
      writtenFile (processIndexes envPromptFalse "out" ⟨"h", "H"⟩ []) = none :=
  declined_overwrite_nothing_exported rfl

/-- C4 (counterexample): an index whose first assignment lacks the
active-content-webhook link relation does not get a `null` webhook field; the
JS code throws on `.href` of `undefined` (get.ts line 122) and the whole
export rejects, contradicting the claim's "without raising an error". -/
theorem missing_link_raises_error :
    handler envC4x "out" = .error "TypeError: cannot read href of undefined" ∧
      writtenFile (handler envC4x "out") = none := by
  exact ⟨by rfl, by rfl⟩

/-- C4 (amended): for every exported entry whose index has no content-type
assignment, both webhook fields are present with the JSON value `null`
(encoded `none`); a first assignment lacking a link relation instead makes
the export reject. -/
theorem webhooks_null_when_no_assignment {env : FetchEnv} {dir p : String}
    {entries : List IndexEntry} {e : IndexEntry}
    (h : handler env dir = .ok (.exported p entries)) (he : e ∈ entries)
    (ha : env.getIndexAssignedContentTypes e.id = .ok []) :
    e.activeContentWebhook = none ∧ e.archivedContentWebhook = none := by
  obtain ⟨item, s, asg, aro, bro, awo, bwo, ridx, rset, hpar, hs, hasg, hrefs, hra, hrb,
    hridx, hrset, hee⟩ := handler_entry_spec h he
  subst hee
  simp only [mkIndexEntry] at ha
  have hasg0 : asg = [] := Except.ok.inj (hasg.symm.trans ha)
  subst hasg0
  simp only [extractRefsOne, Except.ok.injEq, Prod.mk.injEq] at hrefs
  obtain ⟨h1, h2⟩ := hrefs
  subst h1; subst h2
  simp only [resolveWebhook, Except.ok.injEq] at hra hrb
  subst hra; subst hrb
  exact ⟨rfl, rfl⟩

/-- Witness for the amended C4 theorem at the running example's entry i3. -/
theorem webhooks_null_when_no_assignment_witness :
    entryA3.activeContentWebhook = none ∧ entryA3.archivedContentWebhook = none := by
  have h : handler envA "out" =
      .ok (.exported "out/indexes-h1-Acme.json" [entryA1, entryA3]) := by rfl
  have he : entryA3 ∈ [entryA1, entryA3] := by decide
  have ha : envA.getIndexAssignedContentTypes entryA3.id = .ok [] := by rfl
  exact webhooks_null_when_no_assignment h he ha

/-- C5 (counterexample): with two assignments, the exported entry's
`indexDetails.assignedContentTypes` is the full fetched list (get.ts
line 197), so data from the second assignment does appear in the
`IndexEntry`, contrary to the claim's "no data from later assignments". -/
theorem later_assignments_exported_counterexample :
    handler envC5x "out" = .ok (.exported "out/indexes-h-H.json" [entryC5]) ∧
      entryC5.indexDetails.assignedContentTypes = some [asgC5a, asgC5b] ∧
      asgC5b ≠ asgC5a := by
  exact ⟨by rfl, rfl, by decide⟩

/-- C5 (amended): the webhook fields of an exported entry are determined by
the first assignment's link relations only — each field is `null` when the
reference derived from the link is the empty string (falsy, so never
fetched, get.ts lines 132 and 135), and otherwise is the payload of the
webhook resolved from that reference — but the entry's
`indexDetails.assignedContentTypes` carries the full assignment list,
including the later assignments. -/
theorem webhooks_from_first_assignment_only {env : FetchEnv} {dir p : String}
    {entries : List IndexEntry} {e : IndexEntry} {t : ContentTypeAssignment}
    {rest : List ContentTypeAssignment}
    (h : handler env dir = .ok (.exported p entries)) (he : e ∈ entries)
    (ha : env.getIndexAssignedContentTypes e.id = .ok (t :: rest)) :
    e.indexDetails.assignedContentTypes = some (t :: rest) ∧
      ∃ hrefA hrefB,
        t.links.activeContentWebhook = some hrefA ∧
        t.links.archivedContentWebhook = some hrefB ∧
        ((webhookRef hrefA = "" ∧ e.activeContentWebhook = none) ∨
          ∃ wA, env.getWebhook (webhookRef hrefA) = .ok wA ∧
            e.activeContentWebhook = some wA.customPayload.value) ∧
        ((webhookRef hrefB = "" ∧ e.archivedContentWebhook = none) ∨
          ∃ wB, env.getWebhook (webhookRef hrefB) = .ok wB ∧
            e.archivedContentWebhook = some wB.customPayload.value) := by
  obtain ⟨item, s, asg, aro, bro, awo, bwo, ridx, rset, hpar, hs, hasg, hrefs, hra, hrb,
    hridx, hrset, hee⟩ := handler_entry_spec h he
  subst hee
  simp only [mkIndexEntry] at ha
  have hasg0 : asg = t :: rest := Except.ok.inj (hasg.symm.trans ha)
  subst hasg0
  cases hla : t.links.activeContentWebhook with
  | none =>
    simp only [extractRefsOne, hla] at hrefs
    exact Except.noConfusion hrefs
  | some hrefA =>
  cases hlb : t.links.archivedContentWebhook with
  | none =>
    simp only [extractRefsOne, hla, hlb] at hrefs
    exact Except.noConfusion hrefs
  | some hrefB =>
  simp only [extractRefsOne, hla, hlb, Except.ok.injEq, Prod.mk.injEq] at hrefs
  obtain ⟨h1, h2⟩ := hrefs
  subst h1; subst h2
  refine ⟨by simp [mkIndexEntry], hrefA, hrefB, rfl, rfl, ?_, ?_⟩
  · by_cases hea : webhookRef hrefA = ""
    · simp only [resolveWebhook, if_pos hea, Except.ok.injEq] at hra
      subst hra
      exact Or.inl ⟨hea, rfl⟩
    · simp only [resolveWebhook, if_neg hea] at hra
      cases hw1 : env.getWebhook (webhookRef hrefA) with
      | error e2 =>
        rw [hw1] at hra
        simp only [Except.map] at hra
        exact Except.noConfusion hra
      | ok wA =>
        rw [hw1] at hra
        simp only [Except.map, Except.ok.injEq] at hra
        subst hra
        exact Or.inr ⟨wA, rfl, rfl⟩
  · by_cases heb : webhookRef hrefB = ""
    · simp only [resolveWebhook, if_pos heb, Except.ok.injEq] at hrb
      subst hrb
      exact Or.inl ⟨heb, rfl⟩
    · simp only [resolveWebhook, if_neg heb] at hrb
      cases hw2 : env.getWebhook (webhookRef hrefB) with
      | error e2 =>
        rw [hw2] at hrb
        simp only [Except.map] at hrb
        exact Except.noConfusion hrb
      | ok wB =>
        rw [hw2] at hrb
        simp only [Except.map, Except.ok.injEq] at hrb
        subst hrb
        exact Or.inr ⟨wB, rfl, rfl⟩

/-- Witness for the amended C5 theorem at the two-assignment example, where
both derived references are non-empty and resolve. -/
theorem webhooks_from_first_assignment_only_witness :
    entryC5.indexDetails.assignedContentTypes = some [asgC5a, asgC5b] ∧
      ∃ hrefA hrefB,
        asgC5a.links.activeContentWebhook = some hrefA ∧
        asgC5a.links.archivedContentWebhook = some hrefB ∧
        ((webhookRef hrefA = "" ∧ entryC5.activeContentWebhook = none) ∨
          ∃ wA, envC5x.getWebhook (webhookRef hrefA) = .ok wA ∧
            entryC5.activeContentWebhook = some wA.customPayload.value) ∧
        ((webhookRef hrefB = "" ∧ entryC5.archivedContentWebhook = none) ∨
          ∃ wB, envC5x.getWebhook (webhookRef hrefB) = .ok wB ∧
            entryC5.archivedContentWebhook = some wB.customPayload.value) := by
  have h : handler envC5x "out" = .ok (.exported "out/indexes-h-H.json" [entryC5]) := by rfl
  have he : entryC5 ∈ [entryC5] := by decide
  have ha : envC5x.getIndexAssignedContentTypes entryC5.id = .ok (asgC5a :: [asgC5b]) := by rfl
  exact webhooks_from_first_assignment_only h he ha

/-- C6: an exported entry's `indexDetails` carries `assignedContentTypes`
exactly when the fetched assignment list is non-empty; when it is empty the
field is absent (`none`), not an empty sequence. -/
theorem assignedContentTypes_iff_nonempty {env : FetchEnv} {dir p : String}
    {entries : List IndexEntry} {e : IndexEntry} {ts : List ContentTypeAssignment}
    (h : handler env dir = .ok (.exported p entries)) (he : e ∈ entries)
    (ha : env.getIndexAssignedContentTypes e.id = .ok ts) :
    e.indexDetails.assignedContentTypes = if ts.isEmpty then none else some ts := by
  obtain ⟨item, s, asg, aro, bro, awo, bwo, ridx, rset, hpar, hs, hasg, hrefs, hra, hrb,
    hridx, hrset, hee⟩ := handler_entry_spec h he
  subst hee
  simp only [mkIndexEntry] at ha ⊢
  have hasg0 : asg = ts := Except.ok.inj (hasg.symm.trans ha)
  subst hasg0
  cases asg with
  | nil => simp
  | cons t r => simp

/-- Witness for the C6 theorem at the running example's entry i1. -/
theorem assignedContentTypes_iff_nonempty_witness :
    entryA1.indexDetails.assignedContentTypes =
      if ([asgA1] : List ContentTypeAssignment).isEmpty then none else some [asgA1] := by
  have h : handler envA "out" =
      .ok (.exported "out/indexes-h1-Acme.json" [entryA1, entryA3]) := by rfl
  have he : entryA1 ∈ [entryA1, entryA3] := by decide
  have ha : envA.getIndexAssignedContentTypes entryA1.id = .ok [asgA1] := by rfl
  exact assignedContentTypes_iff_nonempty h he ha

/-- C10: settings with no replicas field behave exactly like an empty
replicas list.  First conjunct: such an index's exported `replicasSettings`
is empty.  Remaining conjuncts: in either replica loop, an index whose block
is empty contributes no fetch event and no result, and never turns an
otherwise-successful expansion into a failure (inserting the empty block
composes the two halves unchanged). -/
theorem absent_replicas_like_empty {env : FetchEnv} {dir p : String}
    {entries : List IndexEntry} {e : IndexEntry} {s2 : IndexSettings}
    (h : handler env dir = .ok (.exported p entries)) (he : e ∈ entries)
    (hs2 : env.getIndexSettings e.id = .ok s2) (hrep : s2.replicas = none) :
    e.replicasSettings = [] ∧
      (∀ xs ys, getReplicaDetailsLoop env (xs ++ ([] : List String) :: ys) =
        match getReplicaDetailsLoop env xs with
        | .error e2 => .error e2
        | .ok (r1, t1) =>
          match getReplicaDetailsLoop env ys with
          | .error e2 => .error e2
          | .ok (r2, t2) => .ok (r1 ++ [] :: r2, t1 ++ [] :: t2)) ∧
      (∀ xs ys, getReplicaSettingsLoop env (xs ++ ([] : List IndexSummary) :: ys) =
        match getReplicaSettingsLoop env xs with
        | .error e2 => .error e2
        | .ok (r1, t1) =>
          match getReplicaSettingsLoop env ys with
          | .error e2 => .error e2
          | .ok (r2, t2) => .ok (r1 ++ [] :: r2, t1 ++ [] :: t2)) := by
  refine ⟨?_, fun xs ys => getReplicaDetailsLoop_insert_empty env xs ys,
    fun xs ys => getReplicaSettingsLoop_insert_empty env xs ys⟩
  obtain ⟨item, s, asg, aro, bro, awo, bwo, ridx, rset, hpar, hs, hasg, hrefs, hra, hrb,
    hridx, hrset, hee⟩ := handler_entry_spec h he
  subst hee
  simp only [mkIndexEntry] at hs2
  have hss : s = s2 := Except.ok.inj (hs.symm.trans hs2)
  subst hss
  rw [hrep] at hridx
  simp only [Option.getD_none, List.map_nil, promiseAll, Except.ok.injEq] at hridx
  subst hridx
  simp only [List.map_nil, promiseAll, Except.ok.injEq] at hrset
  subst hrset
  simp [mkIndexEntry, hrep, buildReplicasSettings]

/-- Witness for the C10 theorem at the running example's entry i3. -/
theorem absent_replicas_like_empty_witness :
    entryA3.replicasSettings = [] := by
  have h : handler envA "out" =
      .ok (.exported "out/indexes-h1-Acme.json" [entryA1, entryA3]) := by rfl
  have he : entryA3 ∈ [entryA1, entryA3] := by decide
  have hs2 : envA.getIndexSettings entryA3.id = .ok ⟨none, "s3"⟩ := by rfl
  exact (absent_replicas_like_empty h he hs2 rfl).1

/-- C3: if any settings, assignment, webhook, by-name or replica-settings
fetch used by the export rejects, the whole run rejects and no file is
written.  The failing fetch is described by the stage that issues it: a
settings or assignment fetch for a listed index, a webhook fetch for a
non-empty derived reference (an empty-string reference is falsy in JS and is
never fetched, get.ts lines 132 and 135), a by-name lookup for a declared
replica name, or a settings fetch for a resolved replica index. -/
theorem fetch_failure_rejects_export {env : FetchEnv} {dir : String}
    {idxs : List IndexSummary}
    (hidx : env.getIdexesDetailsList = .ok idxs)
    (hfail :
      (∃ it ∈ idxs, ∃ msg, env.getIndexSettings it.id = .error msg) ∨
      (∃ it ∈ idxs, ∃ msg, env.getIndexAssignedContentTypes it.id = .error msg) ∨
      (∃ al ar br,
        promiseAll (idxs.map fun it => env.getIndexAssignedContentTypes it.id) = .ok al ∧
        extractWebhookRefs al = .ok (ar, br) ∧
        ∃ w, (some w ∈ ar ∨ some w ∈ br) ∧ w ≠ "" ∧
          ∃ msg, env.getWebhook w = .error msg) ∨
      (∃ sl, promiseAll (idxs.map fun it => env.getIndexSettings it.id) = .ok sl ∧
        ∃ name ∈ (sl.map fun s => s.replicas.getD []).flatten, ∃ msg,
          env.getIndexByName name = .error msg) ∨
      (∃ sl ri t1, promiseAll (idxs.map fun it => env.getIndexSettings it.id) = .ok sl ∧
        getReplicaDetailsLoop env (sl.map fun s => s.replicas.getD []) = .ok (ri, t1) ∧
        ∃ rsum ∈ ri.flatten, ∃ msg, env.getIndexSettings rsum.id = .error msg)) :
    (∃ msg, handler env dir = .error msg) ∧ writtenFile (handler env dir) = none := by
  cases hres : handler env dir with
  | error msg => exact ⟨⟨msg, rfl⟩, rfl⟩
  | ok r =>
    exfalso
    obtain ⟨hub, idxs2, sl, al, ar, br, awl, bwl, ri, rs, t1, t2, hhub, hidx2, hsl, hal, hwr,
      hawl, hbwl, hrd, hrs, hproc⟩ := handler_ok_spec hres
    have hid : idxs2 = idxs := Except.ok.inj (hidx2.symm.trans hidx)
    rw [hid] at hsl hal
    rcases hfail with ⟨it, hit, msg, herr⟩ | ⟨it, hit, msg, herr⟩ |
      ⟨al2, ar2, br2, hal2, hwr2, w, hw, hne, msg, herr⟩ |
      ⟨sl2, hsl2, name, hname, msg, herr⟩ |
      ⟨sl2, ri2, t12, hsl2, hrd2, rsum, hrs3, msg, herr⟩
    · obtain ⟨v, hv⟩ := promiseAll_map_ok_mem hsl it hit
      rw [herr] at hv
      exact Except.noConfusion hv
    · obtain ⟨v, hv⟩ := promiseAll_map_ok_mem hal it hit
      rw [herr] at hv
      exact Except.noConfusion hv
    · have he1 : al2 = al := Except.ok.inj (hal2.symm.trans hal)
      subst he1
      have he2 : (ar2, br2) = (ar, br) := Except.ok.inj (hwr2.symm.trans hwr)
      have he2a : ar2 = ar := congrArg Prod.fst he2
      have he2b : br2 = br := congrArg Prod.snd he2
      subst he2a; subst he2b
      rcases hw with hw | hw
      · obtain ⟨v, hv⟩ := promiseAll_map_ok_mem hawl (some w) hw
        simp only [resolveWebhook, if_neg hne, herr, Except.map] at hv
        exact Except.noConfusion hv
      · obtain ⟨v, hv⟩ := promiseAll_map_ok_mem hbwl (some w) hw
        simp only [resolveWebhook, if_neg hne, herr, Except.map] at hv
        exact Except.noConfusion hv
    · have he1 : sl2 = sl := Except.ok.inj (hsl2.symm.trans hsl)
      subst he1
      obtain ⟨blk, hblk, hnameblk⟩ := List.mem_flatten.mp hname
      obtain ⟨i, hi, hgetd⟩ := mem_getD hblk []
      obtain ⟨hlri, ht1, hrdget⟩ := getReplicaDetailsLoop_ok hrd
      have hp := hrdget i hi
      rw [hgetd] at hp
      obtain ⟨v, hv⟩ := promiseAll_map_ok_mem hp name hnameblk
      rw [herr] at hv
      exact Except.noConfusion hv
    · have he1 : sl2 = sl := Except.ok.inj (hsl2.symm.trans hsl)
      subst he1
      have he2 : (ri2, t12) = (ri, t1) := Except.ok.inj (hrd2.symm.trans hrd)
      have he2a : ri2 = ri := congrArg Prod.fst he2
      subst he2a
      obtain ⟨blk, hblk, hsblk⟩ := List.mem_flatten.mp hrs3
      obtain ⟨i, hi, hgetd⟩ := mem_getD hblk []
      obtain ⟨hlrs, ht2, hrsget⟩ := getReplicaSettingsLoop_ok hrs
      have hp := hrsget i hi
      rw [hgetd] at hp
      obtain ⟨v, hv⟩ := promiseAll_map_ok_mem hp rsum hsblk
      rw [herr] at hv
      exact Except.noConfusion hv

/-- Witness for the C3 theorem: a rejecting settings fetch aborts the run. -/
theorem fetch_failure_rejects_export_witness :
    (∃ msg, handler envFail "out" = .error msg) ∧
      writtenFile (handler envFail "out") = none := by
  have hidx : envFail.getIdexesDetailsList = .ok [idxA1, idxA2, idxA3] := rfl
  have herr : envFail.getIndexSettings idxA1.id = .error "network down" := rfl
  exact fetch_failure_rejects_export hidx (Or.inl ⟨idxA1, by decide, "network down", herr⟩)

/-- C7 (counterexample): with two indexes each declaring one replica, the
flattened begin-order trace of replica expansion is by-name(r1), by-name(r2),
settings(ir1), settings(ir2): the by-name lookup that belongs to index 2
(block 1 of the first loop) begins before the replica settings fetch that
belongs to index 1 (block 0 of the second loop), so not all replica-related
fetches of index 1 complete before index 2's begin.  The last conjuncts tie
the replicas lists to the handler's settings stage on the same environment
and show the export itself succeeds. -/
theorem replica_stages_interleave_counterexample :
    getReplicaDetailsLoop envC7x [["r1"], ["r2"]] =
        .ok ([[repC7a], [repC7b]], [[.byName "r1"], [.byName "r2"]]) ∧
      getReplicaSettingsLoop envC7x [[repC7a], [repC7b]] =
        .ok ([[⟨none, "rs1"⟩], [⟨none, "rs2"⟩]], [[.settings "ir1"], [.settings "ir2"]]) ∧
      replicaStagesRun envC7x [["r1"], ["r2"]] =
        .ok ([[repC7a], [repC7b]], [[⟨none, "rs1"⟩], [⟨none, "rs2"⟩]],
          [.byName "r1", .byName "r2", .settings "ir1", .settings "ir2"]) ∧
      List.indexOf (FetchEvent.byName "r2")
          [FetchEvent.byName "r1", .byName "r2", .settings "ir1", .settings "ir2"] <
        List.indexOf (FetchEvent.settings "ir1")
          [FetchEvent.byName "r1", .byName "r2", .settings "ir1", .settings "ir2"] ∧
      promiseAll ([idxC7a, idxC7b].map fun it => envC7x.getIndexSettings it.id) =
        .ok [⟨some ["r1"], "s1"⟩, ⟨some ["r2"], "s2"⟩] ∧
      ([(⟨some ["r1"], "s1"⟩ : IndexSettings), ⟨some ["r2"], "s2"⟩].map
          fun s => s.replicas.getD []) = [["r1"], ["r2"]] ∧
      (handler envC7x "out").isOk = true := by
  exact ⟨rfl, rfl, rfl, by decide, rfl, rfl, by rfl⟩

/-- C7 (amended): replica expansion runs as two sequential sub-stages, each
throttled one index at a time in input order: first every index's by-name
lookups (one block per index, in order), then every index's replica settings
fetches (one block per index, in order); all by-name lookups complete before
any replica settings fetch begins. -/
theorem replica_expansion_two_sequential_stages {env : FetchEnv}
    {reps : List (List String)} {ri : List (List IndexSummary)}
    {rs : List (List IndexSettings)} {trace : List FetchEvent}
    (h : replicaStagesRun env reps = .ok (ri, rs, trace)) :
    trace = (reps.map fun names => names.map FetchEvent.byName).flatten ++
        (ri.map fun blk => blk.map fun s => FetchEvent.settings s.id).flatten ∧
      ri.length = reps.length ∧ rs.length = ri.length := by
  unfold replicaStagesRun at h
  cases hd : getReplicaDetailsLoop env reps with
  | error e => rw [hd] at h; exact Except.noConfusion h
  | ok p1 =>
    obtain ⟨ri2, t1⟩ := p1
    simp only [hd] at h
    cases hs2 : getReplicaSettingsLoop env ri2 with
    | error e =>
      simp only [hs2] at h
      exact Except.noConfusion h
    | ok p2 =>
      obtain ⟨rs2, t2⟩ := p2
      simp only [hs2, Except.ok.injEq, Prod.mk.injEq] at h
      obtain ⟨h1, h2, h3⟩ := h
      subst h1; subst h2; subst h3
      obtain ⟨hl1, ht1, hget1⟩ := getReplicaDetailsLoop_ok hd
      obtain ⟨hl2, ht2, hget2⟩ := getReplicaSettingsLoop_ok hs2
      exact ⟨by rw [ht1, ht2], hl1, hl2⟩

/-- Witness for the amended C7 theorem at the two-replica example. -/
theorem replica_expansion_two_sequential_stages_witness :
    ([FetchEvent.byName "r1", .byName "r2", .settings "ir1", .settings "ir2"] :
        List FetchEvent) =
      (([["r1"], ["r2"]] : List (List String)).map fun names =>
          names.map FetchEvent.byName).flatten ++
        (([[repC7a], [repC7b]] : List (List IndexSummary)).map fun blk =>
          blk.map fun s => FetchEvent.settings s.id).flatten ∧
      ([[repC7a], [repC7b]] : List (List IndexSummary)).length =
        ([["r1"], ["r2"]] : List (List String)).length ∧
      ([[(⟨none, "rs1"⟩ : IndexSettings)], [⟨none, "rs2"⟩]] :
        List (List IndexSettings)).length =
        ([[repC7a], [repC7b]] : List (List IndexSummary)).length := by
  exact @replica_expansion_two_sequential_stages envC7x [["r1"], ["r2"]]
    [[repC7a], [repC7b]] [[⟨none, "rs1"⟩], [⟨none, "rs2"⟩]]
    [FetchEvent.byName "r1", .byName "r2", .settings "ir1", .settings "ir2"] (by rfl)

theorem dropWhile_eq_self_of_head {α : Type} (p : α → Bool) (l : List α)
    (h : ∀ a ∈ l, p a = false) : l.dropWhile p = l := by
  cases l with
  | nil => rfl
  | cons x xs => simp [List.dropWhile_cons, h x (List.mem_cons_self x xs)]

theorem takeWhile_eq_self_of_forall {α : Type} (p : α → Bool) (l : List α)
    (h : ∀ a ∈ l, p a = true) : l.takeWhile p = l := by
  induction l with
  | nil => rfl
  | cons x xs ih =>
    simp [List.takeWhile_cons, h x (List.mem_cons_self x xs),
      ih (fun a ha => h a (List.mem_cons_of_mem x ha))]

theorem pathBasename_no_sep_no_ext {p : String} (h2 : '/' ∉ p.toList)
    (h3 : (".json".toList).isSuffixOf p.toList = false) :
    pathBasename p ".json" = p := by
  have hall : ∀ c ∈ p.toList.reverse, (c == '/') = false := by
    intro c hc
    have hm : c ∈ p.toList := List.mem_reverse.mp hc
    simp only [beq_eq_false_iff_ne, ne_eq]
    intro he; subst he; exact h2 hm
  have hdrop : dropTrailingSeps p.toList = p.toList := by
    unfold dropTrailingSeps
    rw [dropWhile_eq_self_of_head _ _ hall, List.reverse_reverse]
  have htakeAll : ∀ a ∈ p.toList.reverse, (a != '/') = true := by
    intro a ha
    have hm : a ∈ p.toList := List.mem_reverse.mp ha
    simp only [bne_iff_ne, ne_eq]
    intro he; subst he; exact h2 hm
  have htake : lastComponent p.toList = p.toList := by
    unfold lastComponent
    rw [takeWhile_eq_self_of_forall _ _ htakeAll, List.reverse_reverse]
  simp only [pathBasename, hdrop, htake]
  rw [if_neg]
  · rfl
  · intro hcon
    rw [h3] at hcon
    exact Bool.noConfusion hcon.1

theorem jsStripTrailingSep_no_sep {s : String} (h : ¬ s.toList.getLast? = some '/') :
    jsStripTrailingSep s = s := by
  unfold jsStripTrailingSep
  rw [if_neg h]

/-- C9 (counterexample): with hub name "Acme.json", `path.basename(.., '.json')`
strips the name's ".json" suffix (get.ts line 66), so the written path is
"out/indexes-h1-Acme.json" rather than the claimed
dir + sep + "indexes-" + id + "-" + name + ".json". -/
theorem export_path_counterexample :
    processIndexes envC1 "out" ⟨"h1", "Acme.json"⟩ [] =
        .ok (.exported "out/indexes-h1-Acme.json" []) ∧
      "out/indexes-h1-Acme.json" ≠
        "out" ++ pathSep ++ "indexes-" ++ "h1" ++ "-" ++ "Acme.json" ++ ".json" := by
  exact ⟨by rfl, by decide⟩

/-- C9 (amended): the export writes to
dir + sep + basename("indexes-" + id + "-" + name, ".json") + ".json", where
one trailing separator of dir is stripped; this equals the claimed
dir + sep + "indexes-" + id + "-" + name + ".json" whenever the directory has
no trailing separator and the string "indexes-" + id + "-" + name contains no
separator and does not already end in ".json". -/
theorem export_path_formula {env : FetchEnv} {outputDir : String} {hub : Hub}
    {entries : List IndexEntry}
    (h1 : ¬ outputDir.toList.getLast? = some '/')
    (h2 : '/' ∉ ("indexes-" ++ hub.id ++ "-" ++ hub.name).toList)
    (h3 : (".json".toList).isSuffixOf ("indexes-" ++ hub.id ++ "-" ++ hub.name).toList = false)
    (hp : env.promptToExportSettings
        (outputDir ++ pathSep ++ ("indexes-" ++ hub.id ++ "-" ++ hub.name) ++ ".json") = true) :
    processIndexes env outputDir hub entries =
      .ok (.exported
        (outputDir ++ pathSep ++ ("indexes-" ++ hub.id ++ "-" ++ hub.name) ++ ".json")
        entries) := by
  have hu : uniqueFilename outputDir hub =
      outputDir ++ pathSep ++ ("indexes-" ++ hub.id ++ "-" ++ hub.name) ++ ".json" := by
    simp only [uniqueFilename, pathBasename_no_sep_no_ext h2 h3, jsStripTrailingSep_no_sep h1]
  simp only [processIndexes, hu, hp, if_true]

/-- Witness for the amended C9 theorem at the spec §8 hub. -/
theorem export_path_formula_witness :
    processIndexes envC1 "out" ⟨"h1", "Acme"⟩ [] =
      .ok (.exported
        ("out" ++ pathSep ++ ("indexes-" ++ ("h1" : String) ++ "-" ++ "Acme") ++ ".json")
        []) := by
  have h1 : ¬ ("out" : String).toList.getLast? = some '/' := by decide
  have h2 : '/' ∉ ("indexes-" ++ ("h1" : String) ++ "-" ++ "Acme").toList := by decide
  have h3 : (".json".toList).isSuffixOf
      ("indexes-" ++ ("h1" : String) ++ "-" ++ "Acme").toList = false := by decide
  have hp : envC1.promptToExportSettings
      ("out" ++ pathSep ++ ("indexes-" ++ ("h1" : String) ++ "-" ++ "Acme") ++ ".json") =
        true := rfl
  exact export_path_formula h1 h2 h3 hp

end DcCli
